import Mathlib

/-!
Verification of `theanets/recurrent.py`: the windowed minibatch sampler
`batches` and the error expressions of the recurrent `Predictor` and
`Classifier` task variants.

Modelling conventions:
* numpy arrays are nested lists of rationals; a 2-D array carries its
  `dtype` as an explicit field (numpy dtypes are opaque tags here);
* `np.random.randint(hi)` is modelled as a function of one raw draw `r`
  taken from a caller-supplied stream: it fails (as numpy does, with
  "low >= high") when `hi <= 0` and otherwise returns `r % hi`, which
  ranges over exactly `[0, hi)`;
* Theano symbolic tensors are evaluated tensors: the error expressions
  become ordinary functions of concrete nested lists; `TT.log` is an
  opaque parameter `log : ℚ → ℚ` since only the structure of the
  expression, never an analytic property of the logarithm, is at stake.
-/

namespace Theanets

/-- A 3-D tensor value (time, batch, feature). -/
abbrev T3 := List (List (List ℚ))

/-- Elementwise combination of two 3-D tensors (Theano broadcasting is not
needed by the claims: operands always share a shape). -/
def zip3d (f : ℚ → ℚ → ℚ) (a b : T3) : T3 :=
  List.zipWith (List.zipWith (List.zipWith f)) a b

/-- Sum of every element of a 3-D tensor (`.sum()`). -/
def tsum3 (t : T3) : ℚ :=
  (t.map fun m => (m.map List.sum).sum).sum

/-- Number of elements of a 3-D tensor. -/
def tcount3 (t : T3) : ℕ :=
  (t.map fun m => (m.map List.length).sum).sum

/-- Mean of every element of a 3-D tensor (`.mean()`). -/
def tmean3 (t : T3) : ℚ := tsum3 t / (tcount3 t : ℚ)

/-- A rectangular list of rows: `T` rows, each of length `B`. -/
def rectRows {α : Type} (l : List (List α)) (T B : ℕ) : Prop :=
  l.length = T ∧ ∀ r ∈ l, r.length = B

/-- A rectangular 3-D tensor of shape `(T, B, F)`. -/
def rect3 (t : T3) (T B F : ℕ) : Prop :=
  t.length = T ∧ ∀ m ∈ t, rectRows m B F

instance {α : Type} (l : List (List α)) (T B : ℕ) : Decidable (rectRows l T B) := by
  unfold rectRows; infer_instance

instance (t : T3) (T B F : ℕ) : Decidable (rect3 t T B F) := by
  unfold rect3 rectRows; infer_instance

/-- Element of a 2-D list at `(t, b)`, with defaults. -/
def get2 {α : Type} (l : List (List α)) (t b : ℕ) (d : α) : α :=
  (l.getD t []).getD b d

/-- Element of a 3-D tensor at `(t, b, f)`. -/
def get3 (x : T3) (t b f : ℕ) : ℚ :=
  ((x.getD t []).getD b []).getD f 0

/-! ## The minibatch sampler `batches` -/

/-- A 2-D numpy array: rows are time steps; the dtype is an opaque tag. -/
structure Arr2 where
  dtype : String
  data : List (List ℚ)
deriving DecidableEq

/-- A 3-D numpy array (time, batch slot, feature) with its dtype. -/
structure Arr3 where
  dtype : String
  data : T3
deriving DecidableEq

/-- Model of `np.random.randint(hi)` fed one raw draw `r` from the random
stream: error when the range is empty (numpy raises ValueError "low >=
high"), otherwise a value in `[0, hi)`. -/
def npRandint (hi : ℤ) (r : ℕ) : Except String ℕ :=
  if hi ≤ 0 then .error "low >= high" else .ok ((r % hi).toNat)

/-- The `batch_size` successive draws `j = np.random.randint(len(samples)
- steps)` made by one sampler invocation, consuming the stream `rs` one
raw draw per slot. -/
def drawOffsets (hi : ℤ) : ℕ → List ℕ → Except String (List ℕ)
  | 0, _ => .ok []
  | k + 1, rs => do
      let j ← npRandint hi (rs.headD 0)
      let js ← drawOffsets hi k rs.tail
      pure (j :: js)

/-- The window `samples[j : j+steps]`. -/
def sliceWindow (data : List (List ℚ)) (j steps : ℕ) : List (List ℚ) :=
  (data.drop j).take steps

/-- Assemble the batch array from the per-slot windows: the source writes
window `i` into `xs[:, i, :]` of a `(steps, batch_size, features)` zeros
array, so time-row `t` of the result collects row `t` of every window.
The numpy assignment requires each copied window to fill its
`(steps, features)` slot exactly — a shorter window raises a broadcast
error — so every theorem below that asserts a successful call carries
length hypotheses under which each drawn window has exactly `steps`
rows, and the `getD` default here is never reached at those inputs. -/
def stackColumns (windows : List (List (List ℚ))) (steps : ℕ) : T3 :=
  (List.range steps).map fun t => windows.map fun w => w.getD t []

/-- The closure `unlabeled_sample` of `batches`: one invocation, driven by
the raw random stream `rs`. -/
def unlabeled_sample (samples : Arr2) (steps batch_size : ℕ) (rs : List ℕ) :
    Except String (List Arr3) := do
  let js ← drawOffsets ((samples.data.length : ℤ) - steps) batch_size rs
  pure [⟨samples.dtype, stackColumns (js.map fun j => sliceWindow samples.data j steps) steps⟩]

/-- The closure `labeled_sample` of `batches`: each slot draws one offset
`j` and copies `samples[j:j+steps]` and `labels[j:j+steps]` with that
same `j`. -/
def labeled_sample (samples labels : Arr2) (steps batch_size : ℕ) (rs : List ℕ) :
    Except String (List Arr3) := do
  let js ← drawOffsets ((samples.data.length : ℤ) - steps) batch_size rs
  pure [⟨samples.dtype, stackColumns (js.map fun j => sliceWindow samples.data j steps) steps⟩,
        ⟨labels.dtype, stackColumns (js.map fun j => sliceWindow labels.data j steps) steps⟩]

/-- `theanets.recurrent.batches`: returns the sampling callable, choosing
the labeled or unlabeled closure once, from whether `labels` is present. -/
def batches (samples : Arr2) (labels : Option Arr2) (steps batch_size : ℕ) :
    List ℕ → Except String (List Arr3) :=
  match labels with
  | none => unlabeled_sample samples steps batch_size
  | some l => labeled_sample samples l steps batch_size

/-! ## Predictor error -/

/-- `Predictor.generate_prediction`: the default identity transform from
raw output to predicted next input. -/
def generate_prediction (y : T3) : T3 := y

/-- `Predictor.error`: `err = x[1:] - generate_prediction(output)[:-1]`,
then `(weights[1:] * err * err).sum() / weights[1:].sum()` when weighted,
else `(err * err).mean()`. -/
def Predictor_error (weighted : Bool) (x weights output : T3) : ℚ :=
  let err := zip3d (· - ·) (x.drop 1) (generate_prediction output).dropLast
  if weighted then
    tsum3 (zip3d (· * ·) (zip3d (· * ·) (weights.drop 1) err) err) / tsum3 (weights.drop 1)
  else tmean3 (zip3d (· * ·) err err)

/-! ## Classifier error -/

/-- `TT.clip(x, lo, hi)`. -/
def clip (x lo hi : ℚ) : ℚ := min (max x lo) hi

/-- The lower clipping bound `1e-8` of the classifier loss. -/
def eps : ℚ := 1 / 100000000

/-- `Classifier.error`: flatten the `(time, batch)` axes of `output`,
`labels` and `weights` into one axis of length `n = time * batch`
(row-major, i.e. `List.join`), gather each flattened position's predicted
probability at its true class (`prob[TT.arange(n), correct]`), clip to
`[1e-8, 1]`, negate the log, and reduce by weighted or plain mean. -/
def Classifier_error (log : ℚ → ℚ) (weighted : Bool) (output : T3)
    (labels : List (List ℕ)) (weights : List (List ℚ)) : ℚ :=
  let correct := labels.flatten
  let w := weights.flatten
  let prob := output.flatten
  let nlp := List.zipWith (fun p c => -(log (clip (p.getD c 0) eps 1))) prob correct
  if weighted then (List.zipWith (· * ·) w nlp).sum / w.sum
  else nlp.sum / (nlp.length : ℚ)

/-! ## Spec-side restatements

The specification describes both losses position-wise, indexing by the
`(time, batch)` pair rather than by a flattened axis.  The definitions
below follow the spec wording; the refinement theorems equate them with
the code embeddings above. -/

/-- Spec wording of the classifier per-position negative log-likelihood at
`(t, b)`: the predicted probability at the true class index, clipped to
`[1e-8, 1]`, negative log. -/
def nlpAt (log : ℚ → ℚ) (output : T3) (labels : List (List ℕ)) (t b : ℕ) : ℚ :=
  -(log (clip (get3 output t b (get2 labels t b 0)) eps 1))

/-- Spec wording of the classifier loss over a `(T, B)` grid of positions:
unweighted mean of the per-position negative log-likelihoods, or weighted
sum divided by the sum of the weights. -/
def classifierLossSpec (log : ℚ → ℚ) (weighted : Bool) (output : T3)
    (labels : List (List ℕ)) (weights : List (List ℚ)) (T B : ℕ) : ℚ :=
  if weighted then
    (∑ t ∈ Finset.range T, ∑ b ∈ Finset.range B,
        get2 weights t b 0 * nlpAt log output labels t b)
      / (∑ t ∈ Finset.range T, ∑ b ∈ Finset.range B, get2 weights t b 0)
  else
    (∑ t ∈ Finset.range T, ∑ b ∈ Finset.range B, nlpAt log output labels t b)
      / ((T * B : ℕ) : ℚ)

/-- Spec wording of the predictor error at `(t, b, f)`: ground truth at
time `t + 1` minus the (identity-transformed) output at time `t`. -/
def predErrAt (x output : T3) (t b f : ℕ) : ℚ :=
  get3 x (t + 1) b f - get3 output t b f

/-- Spec wording of the predictor loss on tensors of shape `(T, B, F)`:
mean of the squared one-step-ahead errors, or their weighted average
using the weights of time steps `1..T-1` (`weights[1:]`). -/
def predictorLossSpec (weighted : Bool) (x weights output : T3) (T B F : ℕ) : ℚ :=
  if weighted then
    (∑ t ∈ Finset.range (T - 1), ∑ b ∈ Finset.range B, ∑ f ∈ Finset.range F,
        get3 weights (t + 1) b f * predErrAt x output t b f * predErrAt x output t b f)
      / (∑ t ∈ Finset.range (T - 1), ∑ b ∈ Finset.range B, ∑ f ∈ Finset.range F,
          get3 weights (t + 1) b f)
  else
    (∑ t ∈ Finset.range (T - 1), ∑ b ∈ Finset.range B, ∑ f ∈ Finset.range F,
        predErrAt x output t b f * predErrAt x output t b f)
      / (((T - 1) * B * F : ℕ) : ℚ)

/-! ## Generic list lemmas -/

theorem map_sum_getD {α : Type} {M : Type} [AddCommMonoid M] (l : List α) (g : α → M) (d : α) :
    (l.map g).sum = ∑ i ∈ Finset.range l.length, g (l.getD i d) := by
  induction l with
  | nil => simp
  | cons a l ih => simp [Finset.sum_range_succ', ih, add_comm]

theorem sum_getD (l : List ℚ) : l.sum = ∑ i ∈ Finset.range l.length, l.getD i 0 := by
  have h := map_sum_getD l id 0
  simpa using h

theorem getD_mem {α : Type} {l : List α} {i : ℕ} (d : α) (h : i < l.length) :
    l.getD i d ∈ l := by
  rw [List.getD_eq_getElem l d h]
  exact List.getElem_mem h

theorem getD_zipWith {α β γ : Type} (f : α → β → γ) (a : List α) (b : List β) (i : ℕ)
    (da : α) (db : β) (dc : γ) (ha : i < a.length) (hb : i < b.length) :
    (List.zipWith f a b).getD i dc = f (a.getD i da) (b.getD i db) := by
  have hi : i < (List.zipWith f a b).length := by
    rw [List.length_zipWith]; exact lt_min ha hb
  rw [List.getD_eq_getElem _ _ hi, List.getD_eq_getElem _ _ ha, List.getD_eq_getElem _ _ hb]
  exact List.getElem_zipWith

theorem flatten_zipWith {α β γ : Type} (f : α → β → γ) :
    ∀ {a : List (List α)} {b : List (List β)},
      List.Forall₂ (fun r s => r.length = s.length) a b →
      List.zipWith f a.flatten b.flatten = (List.zipWith (List.zipWith f) a b).flatten := by
  intro a b h
  induction h with
  | nil => simp
  | cons hl _ ih =>
      simp only [List.flatten_cons, List.zipWith_cons_cons]
      rw [List.zipWith_append _ _ _ _ _ hl, ih]

theorem rect_forall₂ {α β : Type} {a : List (List α)} {b : List (List β)} {T B : ℕ}
    (ha : rectRows a T B) (hb : rectRows b T B) :
    List.Forall₂ (fun r s => r.length = s.length) a b := by
  rw [List.forall₂_iff_get]
  refine ⟨ha.1.trans hb.1.symm, fun i h1 h2 => ?_⟩
  rw [ha.2 _ (a.get_mem i h1), hb.2 _ (b.get_mem i h2)]

theorem flatten_sum_rect (l : List (List ℚ)) (T B : ℕ) (h : rectRows l T B) :
    l.flatten.sum = ∑ t ∈ Finset.range T, ∑ b ∈ Finset.range B, get2 l t b 0 := by
  rw [List.sum_flatten, map_sum_getD l List.sum [], h.1]
  refine Finset.sum_congr rfl fun t ht => ?_
  have htl : t < l.length := h.1 ▸ Finset.mem_range.mp ht
  rw [sum_getD, h.2 _ (getD_mem [] htl)]
  rfl

theorem flatten_length_rect {α : Type} (l : List (List α)) (T B : ℕ) (h : rectRows l T B) :
    l.flatten.length = T * B := by
  rw [List.length_flatten, map_sum_getD l List.length [], h.1]
  rw [Finset.sum_congr rfl fun t ht =>
    h.2 _ (getD_mem [] (h.1 ▸ Finset.mem_range.mp ht))]
  simp [mul_comm]

theorem rectRows_zipWith {α β γ : Type} (f : α → β → γ) {a : List (List α)}
    {b : List (List β)} {T B : ℕ} (ha : rectRows a T B) (hb : rectRows b T B) :
    rectRows (List.zipWith (List.zipWith f) a b) T B := by
  constructor
  · rw [List.length_zipWith, ha.1, hb.1, min_self]
  · intro r hr
    obtain ⟨i, hi, rfl⟩ := List.mem_iff_getElem.mp hr
    rw [List.getElem_zipWith, List.length_zipWith]
    have hia : i < a.length := by
      rw [List.length_zipWith, ha.1, hb.1, min_self] at hi; exact ha.1 ▸ hi
    have hib : i < b.length := by
      rw [List.length_zipWith, ha.1, hb.1, min_self] at hi; exact hb.1 ▸ hi
    rw [ha.2 _ (List.getElem_mem hia), hb.2 _ (List.getElem_mem hib), min_self]

theorem get2_zipWith {α β γ : Type} (f : α → β → γ) {a : List (List α)} {b : List (List β)}
    {T B : ℕ} (ha : rectRows a T B) (hb : rectRows b T B) (da : α) (db : β) (dc : γ)
    {t bi : ℕ} (ht : t < T) (hbi : bi < B) :
    get2 (List.zipWith (List.zipWith f) a b) t bi dc = f (get2 a t bi da) (get2 b t bi db) := by
  unfold get2
  have hta : t < a.length := ha.1 ▸ ht
  have htb : t < b.length := hb.1 ▸ ht
  rw [getD_zipWith (List.zipWith f) a b t [] [] [] hta htb]
  exact getD_zipWith f _ _ bi da db dc
    (by rw [ha.2 _ (getD_mem [] hta)]; exact hbi)
    (by rw [hb.2 _ (getD_mem [] htb)]; exact hbi)

/-! ## Refinement of the classifier error -/

theorem classifier_flatten_eq (log : ℚ → ℚ) (weighted : Bool) (output : T3)
    (labels : List (List ℕ)) (weights : List (List ℚ)) (T B : ℕ)
    (ho : rectRows output T B) (hl : rectRows labels T B) (hw : rectRows weights T B) :
    Classifier_error log weighted output labels weights
      = classifierLossSpec log weighted output labels weights T B := by
  have hq : rectRows
      (List.zipWith (List.zipWith fun p c => -(log (clip (p.getD c 0) eps 1))) output labels)
      T B := rectRows_zipWith _ ho hl
  have hzip : List.zipWith (fun p c => -(log (clip (p.getD c 0) eps 1)))
        output.flatten labels.flatten
      = (List.zipWith (List.zipWith fun p c => -(log (clip (p.getD c 0) eps 1)))
          output labels).flatten :=
    flatten_zipWith _ (rect_forall₂ ho hl)
  have hnlp : (List.zipWith (fun p c => -(log (clip (p.getD c 0) eps 1)))
        output.flatten labels.flatten).sum
      = ∑ t ∈ Finset.range T, ∑ b ∈ Finset.range B, nlpAt log output labels t b := by
    rw [hzip, flatten_sum_rect _ T B hq]
    refine Finset.sum_congr rfl fun t ht => Finset.sum_congr rfl fun b hb => ?_
    rw [get2_zipWith _ ho hl [] 0 0 (Finset.mem_range.mp ht) (Finset.mem_range.mp hb)]
    rfl
  cases weighted with
  | false =>
      simp only [Classifier_error, classifierLossSpec, Bool.false_eq_true, if_false]
      rw [hnlp, List.length_zipWith, flatten_length_rect output T B ho,
        flatten_length_rect labels T B hl, min_self]
  | true =>
      simp only [Classifier_error, classifierLossSpec, if_true]
      rw [flatten_sum_rect weights T B hw]
      congr 1
      rw [hzip, flatten_zipWith _ (rect_forall₂ hw hq),
        flatten_sum_rect _ T B (rectRows_zipWith _ hw hq)]
      refine Finset.sum_congr rfl fun t ht => Finset.sum_congr rfl fun b hb => ?_
      rw [get2_zipWith _ hw hq 0 0 0 (Finset.mem_range.mp ht) (Finset.mem_range.mp hb),
        get2_zipWith _ ho hl [] 0 0 (Finset.mem_range.mp ht) (Finset.mem_range.mp hb)]
      rfl

/-! ## 3-D tensor lemmas and refinement of the predictor error -/

theorem getD_drop_one {α : Type} (l : List α) (t : ℕ) (d : α) :
    (l.drop 1).getD t d = l.getD (t + 1) d := by
  cases l <;> simp [List.getD]

theorem getD_dropLast {α : Type} (l : List α) (t : ℕ) (d : α) (h : t < l.dropLast.length) :
    l.dropLast.getD t d = l.getD t d := by
  have h2 : t < l.length := lt_of_lt_of_le h (by rw [List.length_dropLast]; omega)
  rw [List.getD_eq_getElem _ _ h, List.getD_eq_getElem _ _ h2, List.getElem_dropLast]

theorem tsum3_rect (x : T3) (T B F : ℕ) (h : rect3 x T B F) :
    tsum3 x = ∑ t ∈ Finset.range T, ∑ b ∈ Finset.range B, ∑ f ∈ Finset.range F,
      get3 x t b f := by
  unfold tsum3
  rw [map_sum_getD x _ [], h.1]
  refine Finset.sum_congr rfl fun t ht => ?_
  have htl : t < x.length := h.1 ▸ Finset.mem_range.mp ht
  have hm := h.2 _ (getD_mem [] htl)
  rw [map_sum_getD _ List.sum [], hm.1]
  refine Finset.sum_congr rfl fun b hb => ?_
  have hbl : b < (x.getD t []).length := hm.1 ▸ Finset.mem_range.mp hb
  rw [sum_getD, hm.2 _ (getD_mem [] hbl)]
  rfl

theorem tcount3_rect (x : T3) (T B F : ℕ) (h : rect3 x T B F) :
    tcount3 x = T * B * F := by
  unfold tcount3
  rw [map_sum_getD x _ [], h.1]
  rw [Finset.sum_congr rfl fun t ht =>
    show ((x.getD t []).map List.length).sum = B * F by
      rw [← List.length_flatten,
        flatten_length_rect _ B F (h.2 _ (getD_mem [] (h.1 ▸ Finset.mem_range.mp ht)))]]
  simp [Finset.sum_const, mul_assoc]

theorem rect3_drop_one {x : T3} {T B F : ℕ} (h : rect3 x T B F) :
    rect3 (x.drop 1) (T - 1) B F :=
  ⟨by rw [List.length_drop, h.1], fun m hm => h.2 m (List.mem_of_mem_drop hm)⟩

theorem rect3_dropLast {x : T3} {T B F : ℕ} (h : rect3 x T B F) :
    rect3 x.dropLast (T - 1) B F :=
  ⟨by rw [List.length_dropLast, h.1],
   fun m hm => h.2 m (List.Sublist.mem hm (List.dropLast_sublist x))⟩

theorem rect3_zip3d (f : ℚ → ℚ → ℚ) {a b : T3} {T B F : ℕ}
    (ha : rect3 a T B F) (hb : rect3 b T B F) : rect3 (zip3d f a b) T B F := by
  constructor
  · unfold zip3d; rw [List.length_zipWith, ha.1, hb.1, min_self]
  · intro m hm
    unfold zip3d at hm
    obtain ⟨i, hi, rfl⟩ := List.mem_iff_getElem.mp hm
    have hia : i < a.length := by
      rw [List.length_zipWith, ha.1, hb.1, min_self] at hi; exact ha.1 ▸ hi
    have hib : i < b.length := by
      rw [List.length_zipWith, ha.1, hb.1, min_self] at hi; exact hb.1 ▸ hi
    rw [List.getElem_zipWith]
    exact rectRows_zipWith _ (ha.2 _ (List.getElem_mem hia)) (hb.2 _ (List.getElem_mem hib))

theorem get3_zip3d (g : ℚ → ℚ → ℚ) {a b : T3} {T B F : ℕ}
    (ha : rect3 a T B F) (hb : rect3 b T B F) {t bi fi : ℕ}
    (ht : t < T) (hbi : bi < B) (hfi : fi < F) :
    get3 (zip3d g a b) t bi fi = g (get3 a t bi fi) (get3 b t bi fi) := by
  unfold get3 zip3d
  have hta : t < a.length := ha.1 ▸ ht
  have htb : t < b.length := hb.1 ▸ ht
  have hma := ha.2 _ (getD_mem [] hta)
  have hmb := hb.2 _ (getD_mem [] htb)
  rw [getD_zipWith _ a b t [] [] [] hta htb,
    getD_zipWith _ _ _ bi [] [] [] (by rw [hma.1]; exact hbi) (by rw [hmb.1]; exact hbi)]
  exact getD_zipWith g _ _ fi 0 0 0
    (by rw [hma.2 _ (getD_mem [] (by rw [hma.1]; exact hbi))]; exact hfi)
    (by rw [hmb.2 _ (getD_mem [] (by rw [hmb.1]; exact hbi))]; exact hfi)

theorem get3_drop_one (x : T3) (t b f : ℕ) :
    get3 (x.drop 1) t b f = get3 x (t + 1) b f := by
  unfold get3
  rw [getD_drop_one]

theorem get3_dropLast {x : T3} {T B F : ℕ} (h : rect3 x T B F) {t : ℕ}
    (ht : t < T - 1) (b f : ℕ) : get3 x.dropLast t b f = get3 x t b f := by
  unfold get3
  rw [getD_dropLast _ _ _ (by rw [List.length_dropLast, h.1]; exact ht)]

theorem predictor_eq (weighted : Bool) (x weights output : T3) (T B F : ℕ)
    (hx : rect3 x T B F) (hw : rect3 weights T B F) (ho : rect3 output T B F) :
    Predictor_error weighted x weights output
      = predictorLossSpec weighted x weights output T B F := by
  have hx1 : rect3 (x.drop 1) (T - 1) B F := rect3_drop_one hx
  have ho1 : rect3 output.dropLast (T - 1) B F := rect3_dropLast ho
  have hw1 : rect3 (weights.drop 1) (T - 1) B F := rect3_drop_one hw
  have herr : rect3 (zip3d (· - ·) (x.drop 1) output.dropLast) (T - 1) B F :=
    rect3_zip3d _ hx1 ho1
  have herre : ∀ {t bi fi : ℕ}, t < T - 1 → bi < B → fi < F →
      get3 (zip3d (· - ·) (x.drop 1) output.dropLast) t bi fi = predErrAt x output t bi fi := by
    intro t bi fi ht hbi hfi
    rw [get3_zip3d _ hx1 ho1 ht hbi hfi, get3_drop_one, get3_dropLast ho ht]
    rfl
  cases weighted with
  | false =>
      simp only [Predictor_error, predictorLossSpec, generate_prediction,
        Bool.false_eq_true, if_false, tmean3]
      rw [tsum3_rect _ (T - 1) B F (rect3_zip3d _ herr herr),
        tcount3_rect _ (T - 1) B F (rect3_zip3d _ herr herr)]
      congr 1
      refine Finset.sum_congr rfl fun t ht => Finset.sum_congr rfl fun b hb =>
        Finset.sum_congr rfl fun f hf => ?_
      rw [get3_zip3d _ herr herr (Finset.mem_range.mp ht) (Finset.mem_range.mp hb)
          (Finset.mem_range.mp hf),
        herre (Finset.mem_range.mp ht) (Finset.mem_range.mp hb) (Finset.mem_range.mp hf)]
  | true =>
      simp only [Predictor_error, predictorLossSpec, generate_prediction, if_true]
      congr 1
      · rw [tsum3_rect _ (T - 1) B F (rect3_zip3d _ (rect3_zip3d _ hw1 herr) herr)]
        refine Finset.sum_congr rfl fun t ht => Finset.sum_congr rfl fun b hb =>
          Finset.sum_congr rfl fun f hf => ?_
        rw [get3_zip3d _ (rect3_zip3d _ hw1 herr) herr (Finset.mem_range.mp ht)
            (Finset.mem_range.mp hb) (Finset.mem_range.mp hf),
          get3_zip3d _ hw1 herr (Finset.mem_range.mp ht) (Finset.mem_range.mp hb)
            (Finset.mem_range.mp hf),
          herre (Finset.mem_range.mp ht) (Finset.mem_range.mp hb) (Finset.mem_range.mp hf),
          get3_drop_one]
      · rw [tsum3_rect _ (T - 1) B F hw1]
        refine Finset.sum_congr rfl fun t ht => Finset.sum_congr rfl fun b hb =>
          Finset.sum_congr rfl fun f hf => ?_
        rw [get3_drop_one]

/-! ## Sampler lemmas -/

theorem drawOffsets_ok (hi : ℤ) (hpos : 0 < hi) (k : ℕ) :
    ∀ rs : List ℕ, ∃ js, drawOffsets hi k rs = .ok js ∧ js.length = k ∧
      ∀ j ∈ js, (j : ℤ) < hi := by
  induction k with
  | zero => exact fun rs => ⟨[], rfl, rfl, by simp⟩
  | succ k ih =>
      intro rs
      obtain ⟨js, h1, h2, h3⟩ := ih rs.tail
      refine ⟨((rs.headD 0 : ℤ) % hi).toNat :: js, ?_, by simp [h2], ?_⟩
      · simp only [drawOffsets, npRandint, if_neg (not_le.mpr hpos), h1]
        rfl
      · intro j hj
        rcases List.mem_cons.mp hj with rfl | hj
        · rw [Int.toNat_of_nonneg (Int.emod_nonneg _ (ne_of_gt hpos))]
          exact Int.emod_lt_of_pos _ hpos
        · exact h3 j hj

theorem drawOffsets_nat (L steps : ℕ) (hlt : steps < L) (k : ℕ) (rs : List ℕ) :
    ∃ js, drawOffsets ((L : ℤ) - steps) k rs = .ok js ∧ js.length = k ∧
      ∀ j ∈ js, j < L - steps := by
  have hpos : 0 < (L : ℤ) - steps := by
    have : (steps : ℤ) < L := by exact_mod_cast hlt
    omega
  obtain ⟨js, h1, h2, h3⟩ := drawOffsets_ok _ hpos k rs
  exact ⟨js, h1, h2, fun j hj => by have := h3 j hj; omega⟩

theorem drawOffsets_err (hi : ℤ) (hneg : hi ≤ 0) (k : ℕ) (hk : 0 < k) (rs : List ℕ) :
    drawOffsets hi k rs = .error "low >= high" := by
  cases k with
  | zero => exact absurd hk (lt_irrefl 0)
  | succ k =>
      simp only [drawOffsets, npRandint, if_pos hneg]
      rfl

theorem sliceWindow_length (data : List (List ℚ)) (j steps : ℕ) (h : j + steps ≤ data.length) :
    (sliceWindow data j steps).length = steps := by
  unfold sliceWindow
  rw [List.length_take, List.length_drop]
  omega

theorem sliceWindow_mem {data : List (List ℚ)} {j steps : ℕ} {r : List ℚ}
    (hr : r ∈ sliceWindow data j steps) : r ∈ data :=
  List.mem_of_mem_drop (List.mem_of_mem_take hr)

theorem stackColumns_rect (windows : List (List (List ℚ))) (steps B Fc : ℕ)
    (hlen : windows.length = B)
    (hw : ∀ w ∈ windows, w.length = steps ∧ ∀ r ∈ w, r.length = Fc) :
    rect3 (stackColumns windows steps) steps B Fc := by
  constructor
  · unfold stackColumns; rw [List.length_map, List.length_range]
  · intro m hm
    unfold stackColumns at hm
    obtain ⟨t, ht, rfl⟩ := List.mem_map.mp hm
    have ht2 : t < steps := List.mem_range.mp ht
    constructor
    · rw [List.length_map, hlen]
    · intro r hr
      obtain ⟨w, hwmem, rfl⟩ := List.mem_map.mp hr
      have hws := hw w hwmem
      exact hws.2 _ (getD_mem [] (hws.1 ▸ ht2))

theorem unlabeled_sample_ok (samples : Arr2) (steps batch_size : ℕ) (rs : List ℕ)
    {js : List ℕ}
    (h : drawOffsets ((samples.data.length : ℤ) - steps) batch_size rs = .ok js) :
    unlabeled_sample samples steps batch_size rs
      = .ok [⟨samples.dtype,
          stackColumns (js.map fun j => sliceWindow samples.data j steps) steps⟩] := by
  unfold unlabeled_sample
  rw [h]
  rfl

theorem labeled_sample_ok (samples labels : Arr2) (steps batch_size : ℕ) (rs : List ℕ)
    {js : List ℕ}
    (h : drawOffsets ((samples.data.length : ℤ) - steps) batch_size rs = .ok js) :
    labeled_sample samples labels steps batch_size rs
      = .ok [⟨samples.dtype,
          stackColumns (js.map fun j => sliceWindow samples.data j steps) steps⟩,
        ⟨labels.dtype,
          stackColumns (js.map fun j => sliceWindow labels.data j steps) steps⟩] := by
  unfold labeled_sample
  rw [h]
  rfl

theorem windows_rect {data : List (List ℚ)} {Fc : ℕ} (hrect : ∀ r ∈ data, r.length = Fc)
    {steps : ℕ} {js : List ℕ} (hjs : ∀ j ∈ js, j + steps ≤ data.length) :
    ∀ w ∈ js.map fun j => sliceWindow data j steps,
      w.length = steps ∧ ∀ r ∈ w, r.length = Fc := by
  intro w hw
  obtain ⟨j, hj, rfl⟩ := List.mem_map.mp hw
  exact ⟨sliceWindow_length _ _ _ (hjs j hj), fun r hr => hrect r (sliceWindow_mem hr)⟩

/-! ## Claim theorems -/

/-- C1: `Classifier.error` computes the per-(time, batch) negative
log-likelihood: over a `(T, B)` grid it flattens time and batch into one
axis of size `T * B`, selects each position's predicted probability at
its true class index, clips it to `[1e-8, 1]`, takes the negative log,
and reduces by unweighted mean or by `(weights * nlp).sum() /
weights.sum()` when weighted. -/
theorem classifier_error_matches_spec (log : ℚ → ℚ) (weighted : Bool) (output : T3)
    (labels : List (List ℕ)) (weights : List (List ℚ)) (T B : ℕ)
    (ho : rectRows output T B) (hl : rectRows labels T B) (hw : rectRows weights T B) :
    Classifier_error log weighted output labels weights
      = classifierLossSpec log weighted output labels weights T B :=
  classifier_flatten_eq log weighted output labels weights T B ho hl hw

/-- Witness for C1 at a concrete weighted two-step, one-batch input. -/
theorem classifier_error_matches_spec_witness :
    rectRows [[[(1 : ℚ)/2, 1/2]], [[1/4, 3/4]]] 2 1
      ∧ rectRows [[1], [0]] 2 1 ∧ rectRows [[(2 : ℚ)], [3]] 2 1
      ∧ Classifier_error id true [[[(1 : ℚ)/2, 1/2]], [[1/4, 3/4]]] [[1], [0]] [[(2 : ℚ)], [3]]
        = classifierLossSpec id true [[[(1 : ℚ)/2, 1/2]], [[1/4, 3/4]]] [[1], [0]]
            [[(2 : ℚ)], [3]] 2 1 :=
  ⟨by decide, by decide, by decide,
   classifier_error_matches_spec id true _ _ _ 2 1 (by decide) (by decide) (by decide)⟩

/-- C2: `Predictor.error` computes the squared error between `x[1:]` and
`generate_prediction(output)[:-1]` with `generate_prediction` the
identity, reduced by elementwise mean, or, when weighted, by
`(weights[1:] * err * err).sum() / weights[1:].sum()` — the weighted
average drops the first time step's weights. -/
theorem predictor_error_matches_spec (weighted : Bool) (x weights output : T3) (T B F : ℕ)
    (hx : rect3 x T B F) (hw : rect3 weights T B F) (ho : rect3 output T B F) :
    Predictor_error weighted x weights output
      = predictorLossSpec weighted x weights output T B F :=
  predictor_eq weighted x weights output T B F hx hw ho

/-- Witness for C2 at a concrete weighted two-step, one-batch input. -/
theorem predictor_error_matches_spec_witness :
    rect3 [[[(1 : ℚ)]], [[5]]] 2 1 1 ∧ rect3 [[[(2 : ℚ)]], [[3]]] 2 1 1
      ∧ rect3 [[[(4 : ℚ)]], [[7]]] 2 1 1
      ∧ Predictor_error true [[[(1 : ℚ)]], [[5]]] [[[(2 : ℚ)]], [[3]]] [[[(4 : ℚ)]], [[7]]]
        = predictorLossSpec true [[[(1 : ℚ)]], [[5]]] [[[(2 : ℚ)]], [[3]]]
            [[[(4 : ℚ)]], [[7]]] 2 1 1 :=
  ⟨by decide, by decide, by decide,
   predictor_error_matches_spec true _ _ _ 2 1 1 (by decide) (by decide) (by decide)⟩

/-- C3: for valid inputs, every batch the sampler returns has shape
`(steps, batch_size, feature_count)`; in labeled mode the label batch is
3-D with shape `(steps, batch_size, label_feature_count)`, sharing the
axis-0 and axis-1 extents of the input batch. -/
theorem batches_shape (samples labArr : Arr2) (steps batch_size Fc G : ℕ)
    (hrect : ∀ r ∈ samples.data, r.length = Fc)
    (hlrect : ∀ r ∈ labArr.data, r.length = G)
    (hlablen : labArr.data.length = samples.data.length)
    (_hsteps : 0 < steps) (hlt : steps < samples.data.length) (_hbs : 0 < batch_size)
    (rs : List ℕ) :
    (∃ xs : Arr3, batches samples none steps batch_size rs = .ok [xs] ∧
      rect3 xs.data steps batch_size Fc) ∧
    (∃ xs ys : Arr3, batches samples (some labArr) steps batch_size rs = .ok [xs, ys] ∧
      rect3 xs.data steps batch_size Fc ∧ rect3 ys.data steps batch_size G) := by
  obtain ⟨js, hjs, hlen, hbound⟩ := drawOffsets_nat samples.data.length steps hlt batch_size rs
  have hjs2 : ∀ j ∈ js, j + steps ≤ samples.data.length := fun j hj => by
    have := hbound j hj; omega
  have hjs3 : ∀ j ∈ js, j + steps ≤ labArr.data.length := fun j hj => by
    rw [hlablen]; exact hjs2 j hj
  have hxs : rect3 (stackColumns (js.map fun j => sliceWindow samples.data j steps) steps)
      steps batch_size Fc :=
    stackColumns_rect _ _ _ _ (by rw [List.length_map, hlen]) (windows_rect hrect hjs2)
  have hys : rect3 (stackColumns (js.map fun j => sliceWindow labArr.data j steps) steps)
      steps batch_size G :=
    stackColumns_rect _ _ _ _ (by rw [List.length_map, hlen]) (windows_rect hlrect hjs3)
  exact ⟨⟨_, unlabeled_sample_ok samples steps batch_size rs hjs, hxs⟩,
    ⟨_, _, labeled_sample_ok samples labArr steps batch_size rs hjs, hxs, hys⟩⟩

/-- Witness for C3 at a concrete 3-step series with `steps = 1`. -/
theorem batches_shape_witness :
    0 < 1 ∧ 1 < (Arr2.mk "float64" [[(0 : ℚ)], [1], [2]]).data.length
      ∧ (∃ xs : Arr3,
          batches (Arr2.mk "float64" [[(0 : ℚ)], [1], [2]]) none 1 1 [0] = .ok [xs] ∧
          rect3 xs.data 1 1 1)
      ∧ (∃ xs ys : Arr3,
          batches (Arr2.mk "float64" [[(0 : ℚ)], [1], [2]])
              (some (Arr2.mk "int32" [[(5 : ℚ)], [6], [7]])) 1 1 [0] = .ok [xs, ys] ∧
          rect3 xs.data 1 1 1 ∧ rect3 ys.data 1 1 1) := by
  have h := batches_shape (Arr2.mk "float64" [[(0 : ℚ)], [1], [2]])
    (Arr2.mk "int32" [[(5 : ℚ)], [6], [7]]) 1 1 1 1
    (by decide) (by decide) (by decide) (by decide) (by decide) (by decide) [0]
  exact ⟨by decide, by decide, h.1, h.2⟩

/-- C4: every window offset `j` drawn by one sampler invocation lies in
`[0, len(series) - steps)`, so the window `series[j : j+steps]` has
exactly `steps` rows and lies fully within the series; moreover every
offset in that range is reachable by some raw draw (the model of the
uniform `np.random.randint`). -/
theorem batches_offsets_in_range (samples : Arr2) (steps batch_size : ℕ)
    (hlt : steps < samples.data.length) (rs : List ℕ) :
    ∃ js, drawOffsets ((samples.data.length : ℤ) - steps) batch_size rs = .ok js ∧
      js.length = batch_size ∧
      (∀ j ∈ js, j < samples.data.length - steps ∧ j + steps ≤ samples.data.length ∧
        (sliceWindow samples.data j steps).length = steps) ∧
      (∀ target, target < samples.data.length - steps →
        ∃ r, npRandint ((samples.data.length : ℤ) - steps) r = .ok target) := by
  obtain ⟨js, h1, h2, h3⟩ := drawOffsets_nat _ _ hlt batch_size rs
  have hpos : 0 < (samples.data.length : ℤ) - steps := by omega
  refine ⟨js, h1, h2, fun j hj => ?_, fun target htgt => ⟨target, ?_⟩⟩
  · have hb := h3 j hj
    exact ⟨hb, by omega, sliceWindow_length _ _ _ (by omega)⟩
  · have hmod : (target : ℤ) % ((samples.data.length : ℤ) - steps) = target :=
      Int.emod_eq_of_lt (by positivity) (by omega)
    simp [npRandint, if_neg (not_le.mpr hpos), hmod]
    omega

/-- Witness for C4 on a concrete 3-step series with `steps = 1`. -/
theorem batches_offsets_in_range_witness :
    1 < (Arr2.mk "f" [[(0 : ℚ)], [1], [2]]).data.length
      ∧ (∃ js, drawOffsets (((Arr2.mk "f" [[(0 : ℚ)], [1], [2]]).data.length : ℤ) - 1) 2 [0, 5]
          = .ok js ∧ js.length = 2 ∧
          (∀ j ∈ js, j < (Arr2.mk "f" [[(0 : ℚ)], [1], [2]]).data.length - 1 ∧
            j + 1 ≤ (Arr2.mk "f" [[(0 : ℚ)], [1], [2]]).data.length ∧
            (sliceWindow (Arr2.mk "f" [[(0 : ℚ)], [1], [2]]).data j 1).length = 1) ∧
          (∀ target, target < (Arr2.mk "f" [[(0 : ℚ)], [1], [2]]).data.length - 1 →
            ∃ r, npRandint (((Arr2.mk "f" [[(0 : ℚ)], [1], [2]]).data.length : ℤ) - 1) r
              = .ok target)) :=
  ⟨by decide, batches_offsets_in_range (Arr2.mk "f" [[(0 : ℚ)], [1], [2]]) 1 2 (by decide) [0, 5]⟩

/-- C5: in labeled mode, for a labels array as long as the series (the
shape the source requires — a shorter labels array makes the copy
`ys[:, i, :] = labels[j:j+steps]` raise a broadcast error instead), a
single offset list `js` drives both copies: slot `i` of the input batch
holds `samples[js i : js i + steps]` and slot `i` of the label batch
holds `labels[js i : js i + steps]` with the same `js i`, every window
of either array having exactly `steps` rows, so input and label windows
are always time-aligned. -/
theorem labeled_windows_time_aligned (samples labArr : Arr2) (steps batch_size : ℕ)
    (hlt : steps < samples.data.length)
    (hlablen : labArr.data.length = samples.data.length) (rs : List ℕ) :
    ∃ js, drawOffsets ((samples.data.length : ℤ) - steps) batch_size rs = .ok js ∧
      js.length = batch_size ∧
      (∀ j ∈ js, (sliceWindow samples.data j steps).length = steps ∧
        (sliceWindow labArr.data j steps).length = steps) ∧
      batches samples (some labArr) steps batch_size rs
        = .ok [⟨samples.dtype,
            stackColumns (js.map fun j => sliceWindow samples.data j steps) steps⟩,
          ⟨labArr.dtype,
            stackColumns (js.map fun j => sliceWindow labArr.data j steps) steps⟩] := by
  obtain ⟨js, h1, h2, h3⟩ := drawOffsets_nat _ _ hlt batch_size rs
  refine ⟨js, h1, h2, fun j hj => ?_,
    labeled_sample_ok samples labArr steps batch_size rs h1⟩
  have hb := h3 j hj
  exact ⟨sliceWindow_length _ _ _ (by omega),
    sliceWindow_length _ _ _ (by rw [hlablen]; omega)⟩

/-- Witness for C5 on a concrete labeled series of the same length. -/
theorem labeled_windows_time_aligned_witness :
    1 < (Arr2.mk "f" [[(0 : ℚ)], [1], [2]]).data.length
      ∧ (Arr2.mk "g" [[(7 : ℚ)], [8], [9]]).data.length
          = (Arr2.mk "f" [[(0 : ℚ)], [1], [2]]).data.length
      ∧ (∃ js, drawOffsets (((Arr2.mk "f" [[(0 : ℚ)], [1], [2]]).data.length : ℤ) - 1) 1 [1]
          = .ok js ∧ js.length = 1 ∧
          (∀ j ∈ js, (sliceWindow (Arr2.mk "f" [[(0 : ℚ)], [1], [2]]).data j 1).length = 1 ∧
            (sliceWindow (Arr2.mk "g" [[(7 : ℚ)], [8], [9]]).data j 1).length = 1) ∧
          batches (Arr2.mk "f" [[(0 : ℚ)], [1], [2]])
              (some (Arr2.mk "g" [[(7 : ℚ)], [8], [9]])) 1 1 [1]
            = .ok [⟨(Arr2.mk "f" [[(0 : ℚ)], [1], [2]]).dtype,
                stackColumns (js.map fun j =>
                  sliceWindow (Arr2.mk "f" [[(0 : ℚ)], [1], [2]]).data j 1) 1⟩,
              ⟨(Arr2.mk "g" [[(7 : ℚ)], [8], [9]]).dtype,
                stackColumns (js.map fun j =>
                  sliceWindow (Arr2.mk "g" [[(7 : ℚ)], [8], [9]]).data j 1) 1⟩]) :=
  ⟨by decide, by decide, labeled_windows_time_aligned (Arr2.mk "f" [[(0 : ℚ)], [1], [2]])
    (Arr2.mk "g" [[(7 : ℚ)], [8], [9]]) 1 1 (by decide) (by decide) [1]⟩

/-- C6: the sampling mode is fixed at construction — `batches` returns the
unlabeled closure exactly when `labels` is absent and the labeled closure
exactly when it is present — and every successful invocation of the
unlabeled closure yields a one-element sequence while the labeled closure
yields a two-element sequence. -/
theorem batches_mode_and_arity (samples labArr : Arr2) (steps batch_size : ℕ) :
    batches samples none steps batch_size = unlabeled_sample samples steps batch_size ∧
    batches samples (some labArr) steps batch_size
      = labeled_sample samples labArr steps batch_size ∧
    (∀ rs, (unlabeled_sample samples steps batch_size rs).map List.length
      = (unlabeled_sample samples steps batch_size rs).map fun _ => 1) ∧
    (∀ rs, (labeled_sample samples labArr steps batch_size rs).map List.length
      = (labeled_sample samples labArr steps batch_size rs).map fun _ => 2) := by
  refine ⟨rfl, rfl, fun rs => ?_, fun rs => ?_⟩
  · unfold unlabeled_sample
    cases drawOffsets ((samples.data.length : ℤ) - steps) batch_size rs <;> rfl
  · unfold labeled_sample
    cases drawOffsets ((samples.data.length : ℤ) - steps) batch_size rs <;> rfl

/-- C7: in the weighted classifier loss, positions with weight zero
contribute nothing — two outputs agreeing at every nonzero-weight
position give the same loss, whatever the predictions at zero-weight
positions are. -/
theorem classifier_zero_weight_positions_ignored (log : ℚ → ℚ) (o1 o2 : T3)
    (labels : List (List ℕ)) (weights : List (List ℚ)) (T B : ℕ)
    (h1 : rectRows o1 T B) (h2 : rectRows o2 T B) (hl : rectRows labels T B)
    (hw : rectRows weights T B)
    (hagree : ∀ t ∈ Finset.range T, ∀ b ∈ Finset.range B,
      get2 weights t b 0 ≠ 0 → get2 o1 t b [] = get2 o2 t b []) :
    Classifier_error log true o1 labels weights
      = Classifier_error log true o2 labels weights := by
  rw [classifier_flatten_eq log true o1 labels weights T B h1 hl hw,
    classifier_flatten_eq log true o2 labels weights T B h2 hl hw]
  unfold classifierLossSpec
  simp only [if_true]
  congr 1
  refine Finset.sum_congr rfl fun t ht => Finset.sum_congr rfl fun b hb => ?_
  by_cases hz : get2 weights t b 0 = 0
  · rw [hz, zero_mul, zero_mul]
  · have hrow := hagree t ht b hb hz
    unfold get2 at hrow
    unfold nlpAt get3
    rw [hrow]

/-- Witness for C7: perturbing the prediction at the only zero-weight
position leaves the weighted loss unchanged. -/
theorem classifier_zero_weight_positions_ignored_witness :
    rectRows [[[(2 : ℚ)]], [[5]]] 2 1 ∧ rectRows [[[(2 : ℚ)]], [[9]]] 2 1
      ∧ rectRows [[0], [0]] 2 1 ∧ rectRows [[(3 : ℚ)], [0]] 2 1
      ∧ Classifier_error id true [[[(2 : ℚ)]], [[5]]] [[0], [0]] [[(3 : ℚ)], [0]]
        = Classifier_error id true [[[(2 : ℚ)]], [[9]]] [[0], [0]] [[(3 : ℚ)], [0]] :=
  ⟨by decide, by decide, by decide, by decide,
   classifier_zero_weight_positions_ignored id _ _ _ _ 2 1
     (by decide) (by decide) (by decide) (by decide) (by decide)⟩

/-- C8: the sampler validates nothing at construction; with `steps >=
len(samples)` the failure surfaces only when the callable is invoked, as
the error the random-range primitive raises (numpy's "low >= high"), in
either mode. -/
theorem batches_invalid_steps_error_at_call (samples : Arr2) (labels : Option Arr2)
    (steps batch_size : ℕ) (hmal : samples.data.length ≤ steps) (hbs : 0 < batch_size)
    (rs : List ℕ) :
    batches samples labels steps batch_size rs = .error "low >= high" := by
  have hneg : (samples.data.length : ℤ) - steps ≤ 0 := by omega
  have herr := drawOffsets_err _ hneg batch_size hbs rs
  cases labels with
  | none =>
      show unlabeled_sample samples steps batch_size rs = _
      unfold unlabeled_sample
      rw [herr]
      rfl
  | some l =>
      show labeled_sample samples l steps batch_size rs = _
      unfold labeled_sample
      rw [herr]
      rfl

/-- Witness for C8: a 2-row series with `steps = 5` fails at invocation
time in both modes. -/
theorem batches_invalid_steps_error_at_call_witness :
    (Arr2.mk "f" [[(0 : ℚ)], [1]]).data.length ≤ 5 ∧ 0 < 3
      ∧ batches (Arr2.mk "f" [[(0 : ℚ)], [1]]) none 5 3 [4, 4, 4] = .error "low >= high"
      ∧ batches (Arr2.mk "f" [[(0 : ℚ)], [1]]) (some (Arr2.mk "g" [[(2 : ℚ)], [3]])) 5 3 [4, 4, 4]
        = .error "low >= high" :=
  ⟨by decide, by decide,
   batches_invalid_steps_error_at_call (Arr2.mk "f" [[(0 : ℚ)], [1]]) none 5 3
     (by decide) (by decide) [4, 4, 4],
   batches_invalid_steps_error_at_call (Arr2.mk "f" [[(0 : ℚ)], [1]])
     (some (Arr2.mk "g" [[(2 : ℚ)], [3]])) 5 3 (by decide) (by decide) [4, 4, 4]⟩

/-- C9: every call of either closure preserves the element type — each
array of a successful result carries exactly the source array's dtype:
the input batch gets `samples.dtype` and the label batch `labels.dtype`. -/
theorem batches_preserves_dtype (samples labArr : Arr2) (steps batch_size : ℕ) :
    (∀ rs, (batches samples none steps batch_size rs).map (List.map Arr3.dtype)
      = (batches samples none steps batch_size rs).map fun _ => [samples.dtype]) ∧
    (∀ rs, (batches samples (some labArr) steps batch_size rs).map (List.map Arr3.dtype)
      = (batches samples (some labArr) steps batch_size rs).map
          fun _ => [samples.dtype, labArr.dtype]) := by
  refine ⟨fun rs => ?_, fun rs => ?_⟩
  · show (unlabeled_sample _ _ _ _).map _ = (unlabeled_sample _ _ _ _).map _
    unfold unlabeled_sample
    cases drawOffsets ((samples.data.length : ℤ) - steps) batch_size rs <;> rfl
  · show (labeled_sample _ _ _ _ _).map _ = (labeled_sample _ _ _ _ _).map _
    unfold labeled_sample
    cases drawOffsets ((samples.data.length : ℤ) - steps) batch_size rs <;> rfl

/-- C10: when every supplied weight equals 1, the weighted loss coincides
with the unweighted one, for the classifier (`(weights * nlp).sum() /
weights.sum() = nlp.mean()`) and for the predictor
(`(weights[1:] * err * err).sum() / weights[1:].sum() = (err * err).mean()`). -/
theorem all_ones_weights_loss_eq_unweighted (log : ℚ → ℚ) (output : T3)
    (labels : List (List ℕ)) (cweights : List (List ℚ)) (T B : ℕ)
    (x pweights pout : T3) (T2 B2 F2 : ℕ)
    (ho : rectRows output T B) (hl : rectRows labels T B) (hw : rectRows cweights T B)
    (hw1 : ∀ t ∈ Finset.range T, ∀ b ∈ Finset.range B, get2 cweights t b 0 = 1)
    (hx : rect3 x T2 B2 F2) (hpw : rect3 pweights T2 B2 F2) (hpo : rect3 pout T2 B2 F2)
    (hpw1 : ∀ t ∈ Finset.range T2, ∀ b ∈ Finset.range B2, ∀ f ∈ Finset.range F2,
      get3 pweights t b f = 1) :
    Classifier_error log true output labels cweights
      = Classifier_error log false output labels cweights ∧
    Predictor_error true x pweights pout = Predictor_error false x pweights pout := by
  constructor
  · rw [classifier_flatten_eq log true output labels cweights T B ho hl hw,
      classifier_flatten_eq log false output labels cweights T B ho hl hw]
    unfold classifierLossSpec
    simp only [if_true, Bool.false_eq_true, if_false]
    congr 1
    · refine Finset.sum_congr rfl fun t ht => Finset.sum_congr rfl fun b hb => ?_
      rw [hw1 t ht b hb, one_mul]
    · rw [Finset.sum_congr rfl fun t ht => Finset.sum_congr rfl fun b hb => hw1 t ht b hb]
      simp [Finset.sum_const]
  · rw [predictor_eq true x pweights pout T2 B2 F2 hx hpw hpo,
      predictor_eq false x pweights pout T2 B2 F2 hx hpw hpo]
    unfold predictorLossSpec
    simp only [if_true, Bool.false_eq_true, if_false]
    have hmem : ∀ t ∈ Finset.range (T2 - 1), t + 1 ∈ Finset.range T2 := fun t ht => by
      have := Finset.mem_range.mp ht
      exact Finset.mem_range.mpr (by omega)
    congr 1
    · refine Finset.sum_congr rfl fun t ht => Finset.sum_congr rfl fun b hb =>
        Finset.sum_congr rfl fun f hf => ?_
      rw [hpw1 _ (hmem t ht) b hb f hf, one_mul]
    · rw [Finset.sum_congr rfl fun t ht => Finset.sum_congr rfl fun b hb =>
        Finset.sum_congr rfl fun f hf => hpw1 _ (hmem t ht) b hb f hf]
      simp [Finset.sum_const, mul_assoc]

/-- Witness for C10 at concrete all-ones weights for both losses. -/
theorem all_ones_weights_loss_eq_unweighted_witness :
    rectRows [[[(1 : ℚ)/2]], [[1/4]]] 2 1 ∧ rectRows [[0], [0]] 2 1
      ∧ rectRows [[(1 : ℚ)], [1]] 2 1
      ∧ rect3 [[[(1 : ℚ)]], [[5]]] 2 1 1 ∧ rect3 [[[(1 : ℚ)]], [[1]]] 2 1 1
      ∧ rect3 [[[(4 : ℚ)]], [[7]]] 2 1 1
      ∧ Classifier_error id true [[[(1 : ℚ)/2]], [[1/4]]] [[0], [0]] [[(1 : ℚ)], [1]]
        = Classifier_error id false [[[(1 : ℚ)/2]], [[1/4]]] [[0], [0]] [[(1 : ℚ)], [1]]
      ∧ Predictor_error true [[[(1 : ℚ)]], [[5]]] [[[(1 : ℚ)]], [[1]]] [[[(4 : ℚ)]], [[7]]]
        = Predictor_error false [[[(1 : ℚ)]], [[5]]] [[[(1 : ℚ)]], [[1]]]
            [[[(4 : ℚ)]], [[7]]] := by
  have h := all_ones_weights_loss_eq_unweighted id [[[(1 : ℚ)/2]], [[1/4]]] [[0], [0]]
    [[(1 : ℚ)], [1]] 2 1 [[[(1 : ℚ)]], [[5]]] [[[(1 : ℚ)]], [[1]]] [[[(4 : ℚ)]], [[7]]] 2 1 1
    (by decide) (by decide) (by decide) (by decide) (by decide) (by decide) (by decide)
    (by decide)
  exact ⟨by decide, by decide, by decide, by decide, by decide, by decide, h.1, h.2⟩

end Theanets
